import Mathlib

/-!
Shallow embedding of `apps/beeswax/src/beeswax/server/hive_server2_lib.py`
(Hue's HiveServer2 client library) and proofs of the specification claims.

Conventions of the embedding:
* Thrift structures become Lean structures; thrift `optional` fields become
  `Option`.
* Python `None` results of pure accessors become `PyObj.none` (SQL null /
  absent value); a Python exception raised by an operation becomes the
  `Except.error` side of an `Except`, or `Option.none` where only the
  lookup-failure case matters for the claims.
* Machine doubles are only carried through, never computed with, so their
  payload is an opaque carrier type `DoubleRep`.
-/

/-- Opaque carrier for the payload of a thrift double value: the library
only passes doubles through, it never computes with them. -/
abbrev DoubleRep := Int

/-- Decoded Python scalar produced by the value decoder. -/
inductive PyObj where
  | none
  | bool (b : Bool)
  | int (n : Int)
  | double (d : DoubleRep)
  | str (s : String)
  deriving DecidableEq, Repr

/-- Errors raised by the library (`NoSuchObjectException`,
`QueryServerException` from `beeswax.server.dbms`). -/
inductive PyError where
  | noSuchObjectException
  | queryServerException
  deriving DecidableEq, Repr

/-! ### Wire (thrift) data model: TCLIService types used by the library -/

structure TBoolValue where
  value : Option Bool
  deriving DecidableEq, Repr

structure TByteValue where
  value : Option Int
  deriving DecidableEq, Repr

structure TI16Value where
  value : Option Int
  deriving DecidableEq, Repr

structure TI32Value where
  value : Option Int
  deriving DecidableEq, Repr

structure TI64Value where
  value : Option Int
  deriving DecidableEq, Repr

structure TDoubleValue where
  value : Option DoubleRep
  deriving DecidableEq, Repr

structure TStringValue where
  value : Option String
  deriving DecidableEq, Repr

/-- A tagged wire column value: one-of several typed variants, each
optional, mirroring thrift's TColumnValue union-as-struct. -/
structure TColumnValue where
  boolVal : Option TBoolValue
  byteVal : Option TByteValue
  i16Val : Option TI16Value
  i32Val : Option TI32Value
  i64Val : Option TI64Value
  doubleVal : Option TDoubleValue
  stringVal : Option TStringValue
  deriving DecidableEq, Repr

/-- A wire row: ordered sequence of tagged column values. -/
structure TRow where
  colVals : List TColumnValue
  deriving DecidableEq, Repr

/-- A wire column descriptor; only the field the library reads by name
lookup (`columnName`) is modelled. -/
structure TColumnDesc where
  columnName : String
  deriving DecidableEq, Repr

/-- A wire schema: ordered sequence of column descriptors. -/
structure TTableSchema where
  columns : List TColumnDesc
  deriving DecidableEq, Repr

/-- A wire row set (one fetched result page). -/
structure TRowSet where
  startRowOffset : Int
  rows : List TRow
  deriving DecidableEq, Repr

/-- Response of a FetchResults RPC: the server-reported more-data flag
plus the row set. -/
structure TFetchResultsResp where
  hasMoreRows : Bool
  results : TRowSet
  deriving DecidableEq, Repr

/-- Response of a GetResultSetMetadata RPC. -/
structure TGetResultSetMetadataResp where
  schema : TTableSchema
  deriving DecidableEq, Repr

inductive TStatusCode where
  | SUCCESS_STATUS
  | SUCCESS_WITH_INFO_STATUS
  | STILL_EXECUTING_STATUS
  | ERROR_STATUS
  | INVALID_HANDLE_STATUS
  deriving DecidableEq, Repr

inductive TFetchOrientation where
  | FETCH_NEXT
  | FETCH_FIRST
  deriving DecidableEq, Repr

/-! ### Value Decoder: `HiveServerTColumnValue.val` -/

/-- Reading the `value` attribute of a populated thrift wrapper: a
present payload decodes through `f`, an absent one is Python `None`. -/
def pyOfOpt {α : Type} (f : α → PyObj) : Option α → PyObj
  | some a => f a
  | Option.none => PyObj.none

namespace HiveServerTColumnValue

/-- Embeds `HiveServerTColumnValue.val`: sequential checks of the seven
variants in source order, returning the populated wrapper's `value`;
falls off the end (Python implicit `None`) when none is populated. -/
def val (cv : TColumnValue) : PyObj :=
  match cv.boolVal with
  | some w => pyOfOpt PyObj.bool w.value
  | Option.none =>
    match cv.byteVal with
    | some w => pyOfOpt PyObj.int w.value
    | Option.none =>
      match cv.i16Val with
      | some w => pyOfOpt PyObj.int w.value
      | Option.none =>
        match cv.i32Val with
        | some w => pyOfOpt PyObj.int w.value
        | Option.none =>
          match cv.i64Val with
          | some w => pyOfOpt PyObj.int w.value
          | Option.none =>
            match cv.doubleVal with
            | some w => pyOfOpt PyObj.double w.value
            | Option.none =>
              match cv.stringVal with
              | some w => pyOfOpt PyObj.str w.value
              | Option.none => PyObj.none

end HiveServerTColumnValue

/-! ### Row/Schema view: `HiveServerTRow` -/

namespace HiveServerTRow

/-- Embeds `HiveServerTRow._get_col_position`: position of the first
schema column whose `columnName` equals `column_name`
(`filter(lambda (i, col): col.columnName == column_name, enumerate(...))[0][0]`);
`Option.none` stands for the IndexError raised when the name is absent. -/
def getColPosition (schema : TTableSchema) (column_name : String) : Option Nat :=
  schema.columns.findIdx? (fun c => c.columnName == column_name)

/-- Embeds `HiveServerTRow.col`: find the named column's position in the
schema, index the row there and decode. `Option.none` stands for the
exception raised on a missing name or an out-of-range index. -/
def col (row : TRow) (schema : TTableSchema) (colName : String) : Option PyObj :=
  match getColPosition schema colName with
  | some pos => (row.colVals.get? pos).map HiveServerTColumnValue.val
  | Option.none => Option.none

/-- Embeds `HiveServerTRow.fields`: decode every column in wire order. -/
def fields (row : TRow) : List PyObj :=
  row.colVals.map HiveServerTColumnValue.val

end HiveServerTRow

/-! ### Row set projection: `HiveServerTRowSet.cols` -/

namespace HiveServerTRowSet

/-- Embeds `HiveServerTRowSet.is_empty`. -/
def is_empty (row_set : TRowSet) : Bool :=
  row_set.rows.length == 0

/-- Embeds `HiveServerTRowSet.cols`: one Python dict per row (modelled as
an association list in insertion order; the requested names are distinct
in every call site), each mapping a requested column name to the decoded
value of that row at that name. -/
def cols (row_set : TRowSet) (schema : TTableSchema) (col_names : List String) :
    List (List (String × Option PyObj)) :=
  row_set.rows.map (fun row => col_names.map (fun n => (n, HiveServerTRow.col row schema n)))

end HiveServerTRowSet

/-- Python dict subscript `d[k]` on the association lists built by
`HiveServerTRowSet.cols`; `Option.none` stands for the KeyError on a
missing key (unreachable at the modelled call sites, which look up a key
the dict was built with). -/
def pyDictGet {α : Type} (d : List (String × α)) (k : String) : Option α :=
  (d.find? (fun kv => kv.1 == k)).map (fun kv => kv.2)

/-! ### Result Table: `HiveServerDataTable.__init__` -/

/-- The fields of a `HiveServerDataTable` set by its constructor that the
claims are about. -/
structure HiveServerDataTableS where
  schema : Option TTableSchema
  rows : List TRow
  has_more : Bool
  startRowOffset : Int
  deriving Repr

namespace HiveServerDataTable

/-- Embeds `HiveServerDataTable.__init__`: wraps `results.results` in a
row set; `has_more = not row_set.is_empty()` (the source comments that it
should be `results.hasMoreRows` but that flag is always True in HS2);
`startRowOffset` is taken from the row set unchanged. -/
def init (results : TFetchResultsResp) (schema : Option TGetResultSetMetadataResp) :
    HiveServerDataTableS :=
  { schema := schema.map (fun s => s.schema)
    rows := results.results.rows
    has_more := !(HiveServerTRowSet.is_empty results.results)
    startRowOffset := results.results.startRowOffset }

end HiveServerDataTable

/-! ### Catalog object: `HiveServerTable.__init__` -/

/-- The fields of a `HiveServerTable` set by its constructor. -/
structure HiveServerTableS where
  table : TRow
  table_schema : TTableSchema
  results : TRowSet
  schema : TTableSchema
  deriving Repr

namespace HiveServerTable

/-- Embeds `HiveServerTable.__init__`: raises `NoSuchObjectException`
when the backing table listing has no rows; otherwise keeps the first
row (`table_results.rows and table_results.rows[0] or ''` — a thrift row
object is always truthy, so this is the first row) and the other pages. -/
def init (table_results : TRowSet) (table_schema : TTableSchema)
    (desc_results : TRowSet) (desc_schema : TTableSchema) :
    Except PyError HiveServerTableS :=
  match table_results.rows with
  | [] => Except.error PyError.noSuchObjectException
  | r :: _ => Except.ok ⟨r, table_schema, desc_results, desc_schema⟩

end HiveServerTable

/-! ### Theorems -/

/-- C2: for a tagged wire column value with exactly one populated variant
among boolean/byte/i16/i32/i64/double/string, `HiveServerTColumnValue.val`
returns that variant's payload (the wrapper's `value`, decoding an absent
payload to null), testing variants in the fixed source order; with no
variant populated it returns null and never raises. -/
theorem val_decodes_unique_variant (cv : TColumnValue) :
    (cv.boolVal = Option.none → cv.byteVal = Option.none → cv.i16Val = Option.none →
      cv.i32Val = Option.none → cv.i64Val = Option.none → cv.doubleVal = Option.none →
      cv.stringVal = Option.none → HiveServerTColumnValue.val cv = PyObj.none)
    ∧ (∀ w, cv.boolVal = some w → cv.byteVal = Option.none → cv.i16Val = Option.none →
        cv.i32Val = Option.none → cv.i64Val = Option.none → cv.doubleVal = Option.none →
        cv.stringVal = Option.none → HiveServerTColumnValue.val cv = pyOfOpt PyObj.bool w.value)
    ∧ (∀ w, cv.boolVal = Option.none → cv.byteVal = some w → cv.i16Val = Option.none →
        cv.i32Val = Option.none → cv.i64Val = Option.none → cv.doubleVal = Option.none →
        cv.stringVal = Option.none → HiveServerTColumnValue.val cv = pyOfOpt PyObj.int w.value)
    ∧ (∀ w, cv.boolVal = Option.none → cv.byteVal = Option.none → cv.i16Val = some w →
        cv.i32Val = Option.none → cv.i64Val = Option.none → cv.doubleVal = Option.none →
        cv.stringVal = Option.none → HiveServerTColumnValue.val cv = pyOfOpt PyObj.int w.value)
    ∧ (∀ w, cv.boolVal = Option.none → cv.byteVal = Option.none → cv.i16Val = Option.none →
        cv.i32Val = some w → cv.i64Val = Option.none → cv.doubleVal = Option.none →
        cv.stringVal = Option.none → HiveServerTColumnValue.val cv = pyOfOpt PyObj.int w.value)
    ∧ (∀ w, cv.boolVal = Option.none → cv.byteVal = Option.none → cv.i16Val = Option.none →
        cv.i32Val = Option.none → cv.i64Val = some w → cv.doubleVal = Option.none →
        cv.stringVal = Option.none → HiveServerTColumnValue.val cv = pyOfOpt PyObj.int w.value)
    ∧ (∀ w, cv.boolVal = Option.none → cv.byteVal = Option.none → cv.i16Val = Option.none →
        cv.i32Val = Option.none → cv.i64Val = Option.none → cv.doubleVal = some w →
        cv.stringVal = Option.none → HiveServerTColumnValue.val cv = pyOfOpt PyObj.double w.value)
    ∧ (∀ w, cv.boolVal = Option.none → cv.byteVal = Option.none → cv.i16Val = Option.none →
        cv.i32Val = Option.none → cv.i64Val = Option.none → cv.doubleVal = Option.none →
        cv.stringVal = some w → HiveServerTColumnValue.val cv = pyOfOpt PyObj.str w.value) := by
  obtain ⟨b, y, s16, s32, s64, d, st⟩ := cv
  refine ⟨?_, ?_, ?_, ?_, ?_, ?_, ?_, ?_⟩ <;>
    first
      | (intro h1 h2 h3 h4 h5 h6 h7
         simp only at h1 h2 h3 h4 h5 h6 h7
         subst h1; subst h2; subst h3; subst h4; subst h5; subst h6; subst h7
         rfl)
      | (intro w h1 h2 h3 h4 h5 h6 h7
         simp only at h1 h2 h3 h4 h5 h6 h7
         subst h1; subst h2; subst h3; subst h4; subst h5; subst h6; subst h7
         rfl)

/-- Witness for C2 at a concrete input: a value whose only populated
variant is the boolean one decodes to that boolean. -/
theorem val_decodes_unique_variant_witness :
    HiveServerTColumnValue.val
        ⟨some ⟨some true⟩, Option.none, Option.none, Option.none,
         Option.none, Option.none, Option.none⟩ = PyObj.bool true := by
  exact (val_decodes_unique_variant _).2.1 ⟨some true⟩ rfl rfl rfl rfl rfl rfl rfl

/-- C4: the Result Table's `has_more` flag is true exactly when the
fetched page's row list is non-empty — independent of the server-reported
`hasMoreRows` flag — and `startRowOffset` is the server-reported offset
passed through unchanged. -/
theorem data_table_has_more_offset (results : TFetchResultsResp)
    (schema : Option TGetResultSetMetadataResp) :
    ((HiveServerDataTable.init results schema).has_more = true ↔
      results.results.rows ≠ [])
    ∧ (∀ b : Bool,
        (HiveServerDataTable.init { results with hasMoreRows := b } schema).has_more =
          (HiveServerDataTable.init results schema).has_more)
    ∧ (HiveServerDataTable.init results schema).startRowOffset =
        results.results.startRowOffset := by
  refine ⟨?_, fun b => rfl, rfl⟩
  simp [HiveServerDataTable.init, HiveServerTRowSet.is_empty,
    List.length_eq_zero]

/-- C5: constructing a catalog table object from a table-listing page
with zero rows raises `NoSuchObjectException`; with at least one row it
yields an object built from the first row, never a null table. -/
theorem table_init_no_such_object (table_results : TRowSet)
    (table_schema : TTableSchema) (desc_results : TRowSet) (desc_schema : TTableSchema) :
    (table_results.rows = [] →
      HiveServerTable.init table_results table_schema desc_results desc_schema =
        Except.error PyError.noSuchObjectException)
    ∧ (∀ r rest, table_results.rows = r :: rest →
        HiveServerTable.init table_results table_schema desc_results desc_schema =
          Except.ok ⟨r, table_schema, desc_results, desc_schema⟩) := by
  constructor
  · intro h
    simp [HiveServerTable.init, h]
  · intro r rest h
    simp [HiveServerTable.init, h]

/-- Witness for C5 at a concrete input: an empty listing raises, a
one-row listing returns the table built from that row. -/
theorem table_init_no_such_object_witness :
    HiveServerTable.init ⟨0, []⟩ ⟨[]⟩ ⟨0, []⟩ ⟨[]⟩ =
        Except.error PyError.noSuchObjectException
    ∧ HiveServerTable.init ⟨0, [⟨[]⟩]⟩ ⟨[]⟩ ⟨0, []⟩ ⟨[]⟩ =
        Except.ok ⟨⟨[]⟩, ⟨[]⟩, ⟨0, []⟩, ⟨[]⟩⟩ := by
  exact ⟨(table_init_no_such_object ⟨0, []⟩ ⟨[]⟩ ⟨0, []⟩ ⟨[]⟩).1 rfl,
    (table_init_no_such_object ⟨0, [⟨[]⟩]⟩ ⟨[]⟩ ⟨0, []⟩ ⟨[]⟩).2 ⟨[]⟩ [] rfl⟩

/-! ### Session/Execution Client and Compatibility Facade operations -/

namespace HiveServerClient

/-- Embeds the column-selection and projection of
`HiveServerClient.get_databases`: the fetched schema-listing page is
projected on the single catalog column whose name depends on the
configured service name. The RPC and fetch plumbing is I/O; the function
takes the fetched page and its schema. -/
def get_databases (server_name : String) (results : TRowSet) (schema : TTableSchema) :
    List (List (String × Option PyObj)) :=
  let col := if server_name = "impala" then "TABLE_SCHEM" else "TABLE_SCHEMA"
  HiveServerTRowSet.cols results schema [col]

/-- Embeds the final truncation of `HiveServerClient.get_partitions`
(`[PartitionValueCompatible(partition, table) for partition in partitionTable.rows()][-max_parts:]`):
the table fetch and `SHOW PARTITIONS` execution are I/O, so the function
takes the list of parsed partition entries and applies the Python
negative-start slice. -/
def get_partitions {α : Type} (partitions : List α) (max_parts : Int) : List α :=
  if 0 ≤ -max_parts then partitions.drop (-max_parts).toNat
  else partitions.drop (partitions.length + -max_parts).toNat

end HiveServerClient

namespace HiveServerClientCompatible

/-- Embeds `HiveServerClientCompatible.get_databases`: projects the
service-dependent catalog column out of each dict returned by the
client's `get_databases`. -/
def get_databases (server_name : String) (results : TRowSet) (schema : TTableSchema) :
    List (Option (Option PyObj)) :=
  let col := if server_name = "impala" then "TABLE_SCHEM" else "TABLE_SCHEMA"
  (HiveServerClient.get_databases server_name results schema).map (fun t => pyDictGet t col)

/-- Embeds `HiveServerClientCompatible.fetch` up to the arguments it
passes to `fetch_data`: the defaulted row limit and the chosen fetch
orientation (Impala does not support FETCH_FIRST, so `start_over` is
forced off for it). -/
def fetch (server_name : String) (start_over : Bool) (max_rows : Option Int) :
    TFetchOrientation × Int :=
  let mr : Int := match max_rows with
    | Option.none => 10000
    | some m => m
  let so : Bool := if server_name = "impala" then false else start_over
  let ornt := if so then TFetchOrientation.FETCH_FIRST else TFetchOrientation.FETCH_NEXT
  (ornt, mr)

end HiveServerClientCompatible

/-! ### Theorems for C3, C6, C7, C10 -/

/-- Helper: `findIdx?` returns the position of the first element
satisfying the predicate, with the accumulator generalized. -/
theorem findIdx?_first_aux {α : Type} (p : α → Bool) :
    ∀ (pre : List α) (c : α) (post : List α) (i : Nat),
      (∀ d ∈ pre, p d = false) → p c = true →
      List.findIdx? p (pre ++ c :: post) i = some (i + pre.length) := by
  intro pre
  induction pre with
  | nil =>
    intro c post i _ hc
    simp [List.findIdx?_cons, hc]
  | cons d pre ih =>
    intro c post i hpre hc
    have hd : p d = false := hpre d (List.mem_cons_self d pre)
    have hrest : ∀ e ∈ pre, p e = false := fun e he => hpre e (List.mem_cons_of_mem d he)
    have := ih c post (i + 1) hrest hc
    simp only [List.cons_append, List.findIdx?_cons, hd]
    rw [if_neg (by simp)]
    rw [this]
    simp [Nat.add_comm, Nat.add_assoc, Nat.add_left_comm]

/-- C3: for a wire row and schema with equal column counts, looking a
field up by name (`HiveServerTRow.col` — linear scan of the schema for
the first column carrying that name, then indexing the row there and
decoding) returns exactly the decoded row element at the manually
computed position of that name (the length of the prefix of columns not
carrying the name). -/
theorem row_col_eq_positional (pre post : List TColumnDesc) (c : TColumnDesc)
    (colVals : List TColumnValue) (colName : String)
    (hlen : colVals.length = (pre ++ c :: post).length)
    (hpre : ∀ d ∈ pre, d.columnName ≠ colName)
    (hc : c.columnName = colName) :
    ∃ v, colVals.get? pre.length = some v ∧
      HiveServerTRow.col ⟨colVals⟩ ⟨pre ++ c :: post⟩ colName =
        some (HiveServerTColumnValue.val v) := by
  have hpos : pre.length < colVals.length := by
    rw [hlen, List.length_append, List.length_cons]
    omega
  have hget : colVals.get? pre.length = some (colVals.get ⟨pre.length, hpos⟩) :=
    List.get?_eq_get hpos
  refine ⟨colVals.get ⟨pre.length, hpos⟩, hget, ?_⟩
  have hfind : List.findIdx? (fun d => d.columnName == colName) (pre ++ c :: post) 0 =
      some pre.length := by
    have := findIdx?_first_aux (fun d => d.columnName == colName) pre c post 0
      (fun d hd => by simp [hpre d hd]) (by simp [hc])
    simpa using this
  simp only [HiveServerTRow.col, HiveServerTRow.getColPosition, hfind]
  rw [hget]
  rfl

/-- Witness for C3 at a concrete input: a two-column schema and row;
looking up the second column's name returns the decoded second value. -/
theorem row_col_eq_positional_witness :
    ∃ v, [⟨Option.none, Option.none, Option.none, Option.none, Option.none, Option.none,
            some ⟨some "x"⟩⟩,
          (⟨Option.none, Option.none, Option.none, some ⟨some 7⟩, Option.none, Option.none,
            Option.none⟩ : TColumnValue)].get? 1 = some v ∧
      HiveServerTRow.col ⟨[⟨Option.none, Option.none, Option.none, Option.none, Option.none,
            Option.none, some ⟨some "x"⟩⟩,
          ⟨Option.none, Option.none, Option.none, some ⟨some 7⟩, Option.none, Option.none,
            Option.none⟩]⟩
          ⟨[⟨"a"⟩] ++ ⟨"b"⟩ :: []⟩ "b" = some (HiveServerTColumnValue.val v) := by
  exact row_col_eq_positional [⟨"a"⟩] [] ⟨"b"⟩ _ "b" rfl
    (by intro d hd; simp at hd; subst hd; decide) rfl

/-- C6 counterexample: as stated over every `maxCount`, the claim fails
at `maxCount = 0`: the Python slice `[-0:]` is `[0:]`, so all five
partitions are returned instead of at most zero. -/
theorem get_partitions_counterexample :
    ¬ ((HiveServerClient.get_partitions [1, 2, 3, 4, 5] (0 : Int)).length ≤ 0) := by
  decide

/-- C6 amended: for every `maxCount ≥ 1` and every list of parsed
partition entries, `get_partitions` returns exactly the last `maxCount`
entries (all of them when fewer exist) in their original order — the
suffix dropping `length − maxCount` elements — hence at most `maxCount`
entries; in particular with `maxCount = 2` and 5 parsed partitions it
returns exactly the last 2 in original order. -/
theorem get_partitions_last_max_parts {α : Type} (partitions : List α) (max_parts : Int)
    (h : 1 ≤ max_parts) :
    HiveServerClient.get_partitions partitions max_parts =
      partitions.drop (partitions.length - max_parts.toNat)
    ∧ (HiveServerClient.get_partitions partitions max_parts).length ≤ max_parts.toNat := by
  have hneg : ¬ (0 ≤ -max_parts) := by omega
  have heq : HiveServerClient.get_partitions partitions max_parts =
      partitions.drop (partitions.length - max_parts.toNat) := by
    unfold HiveServerClient.get_partitions
    rw [if_neg hneg]
    congr 1
    omega
  refine ⟨heq, ?_⟩
  rw [heq, List.length_drop]
  omega

/-- Witness for C6 (amended) at the claim's own instance: `maxCount = 2`
with 5 parsed partitions returns exactly the last 2 in original order. -/
theorem get_partitions_last_max_parts_witness :
    HiveServerClient.get_partitions [1, 2, 3, 4, 5] (2 : Int) = [4, 5] := by
  have h := (get_partitions_last_max_parts [1, 2, 3, 4, 5] (2 : Int) (by decide)).1
  rw [h]
  decide

/-- C7: `get_databases` projects the catalog column `TABLE_SCHEM` when
the configured service name is `impala` and `TABLE_SCHEMA` for any other
service name, and the Compatibility Facade's `get_databases` applies the
same selection, returning that column's decoded value for each row. -/
theorem get_databases_column_selection (server_name : String) (results : TRowSet)
    (schema : TTableSchema) :
    (server_name = "impala" →
      HiveServerClient.get_databases server_name results schema =
        results.rows.map (fun r => [("TABLE_SCHEM", HiveServerTRow.col r schema "TABLE_SCHEM")])
      ∧ HiveServerClientCompatible.get_databases server_name results schema =
        results.rows.map (fun r => some (HiveServerTRow.col r schema "TABLE_SCHEM")))
    ∧ (server_name ≠ "impala" →
      HiveServerClient.get_databases server_name results schema =
        results.rows.map (fun r => [("TABLE_SCHEMA", HiveServerTRow.col r schema "TABLE_SCHEMA")])
      ∧ HiveServerClientCompatible.get_databases server_name results schema =
        results.rows.map (fun r => some (HiveServerTRow.col r schema "TABLE_SCHEMA"))) := by
  constructor
  · intro h
    subst h
    constructor
    · simp [HiveServerClient.get_databases, HiveServerTRowSet.cols]
    · simp [HiveServerClientCompatible.get_databases, HiveServerClient.get_databases,
        HiveServerTRowSet.cols, pyDictGet, List.find?]
  · intro h
    constructor
    · simp [HiveServerClient.get_databases, HiveServerTRowSet.cols, if_neg h]
    · simp [HiveServerClientCompatible.get_databases, HiveServerClient.get_databases,
        HiveServerTRowSet.cols, pyDictGet, List.find?, if_neg h]

/-- Witness for C7 at concrete inputs: a one-row page projected for the
`impala` service and for another service. -/
theorem get_databases_column_selection_witness :
    HiveServerClient.get_databases "impala" ⟨0, [⟨[]⟩]⟩ ⟨[⟨"TABLE_SCHEM"⟩]⟩ =
      [[("TABLE_SCHEM", HiveServerTRow.col ⟨[]⟩ ⟨[⟨"TABLE_SCHEM"⟩]⟩ "TABLE_SCHEM")]]
    ∧ HiveServerClient.get_databases "beeswax" ⟨0, [⟨[]⟩]⟩ ⟨[⟨"TABLE_SCHEMA"⟩]⟩ =
      [[("TABLE_SCHEMA", HiveServerTRow.col ⟨[]⟩ ⟨[⟨"TABLE_SCHEMA"⟩]⟩ "TABLE_SCHEMA")]] := by
  exact ⟨((get_databases_column_selection "impala" ⟨0, [⟨[]⟩]⟩ ⟨[⟨"TABLE_SCHEM"⟩]⟩).1 rfl).1,
    ((get_databases_column_selection "beeswax" ⟨0, [⟨[]⟩]⟩ ⟨[⟨"TABLE_SCHEMA"⟩]⟩).2
      (by decide)).1⟩

/-- C10: in the Compatibility Facade's `fetch`, a missing `max_rows`
defaults to 10000; the service name `impala` always yields orientation
FETCH_NEXT regardless of `start_over`; any other service yields
FETCH_FIRST when `start_over` is true and FETCH_NEXT when it is false. -/
theorem fetch_orientation_and_default (server_name : String) (start_over : Bool)
    (max_rows : Option Int) :
    (max_rows = Option.none →
      (HiveServerClientCompatible.fetch server_name start_over max_rows).2 = 10000)
    ∧ (server_name = "impala" →
      (HiveServerClientCompatible.fetch server_name start_over max_rows).1 =
        TFetchOrientation.FETCH_NEXT)
    ∧ (server_name ≠ "impala" →
      (HiveServerClientCompatible.fetch server_name start_over max_rows).1 =
        (if start_over then TFetchOrientation.FETCH_FIRST else TFetchOrientation.FETCH_NEXT)) := by
  refine ⟨?_, ?_, ?_⟩
  · intro h
    subst h
    rfl
  · intro h
    subst h
    simp [HiveServerClientCompatible.fetch]
  · intro h
    simp [HiveServerClientCompatible.fetch, if_neg h]

/-- Witness for C10 at concrete inputs: for `impala` with `start_over`
true and no `max_rows`, the request is FETCH_NEXT with 10000 rows; for
`beeswax` with `start_over` true it is FETCH_FIRST. -/
theorem fetch_orientation_and_default_witness :
    (HiveServerClientCompatible.fetch "impala" true Option.none).2 = 10000
    ∧ (HiveServerClientCompatible.fetch "impala" true Option.none).1 =
        TFetchOrientation.FETCH_NEXT
    ∧ (HiveServerClientCompatible.fetch "beeswax" true (some 5)).1 =
        TFetchOrientation.FETCH_FIRST := by
  refine ⟨(fetch_orientation_and_default "impala" true Option.none).1 rfl,
    (fetch_orientation_and_default "impala" true Option.none).2.1 rfl, ?_⟩
  exact (fetch_orientation_and_default "beeswax" true (some 5)).2.2 (by decide)

/-! ### Catalog columns: `HiveServerTTableSchema.cols` and `HiveServerTable.cols` -/

namespace HiveServerTTableSchema

/-- Embeds `HiveServerTTableSchema.cols`: projects each describe-result
row on the `col_name`, `data_type`, `comment` columns. -/
def cols (columns : TRowSet) (schema : TTableSchema) :
    List (List (String × Option PyObj)) :=
  HiveServerTRowSet.cols columns schema ["col_name", "data_type", "comment"]

end HiveServerTTableSchema

/-- Python truthiness `bool(x)` on a decoded scalar. -/
def pyTruthy : PyObj → Bool
  | PyObj.none => false
  | PyObj.bool b => b
  | PyObj.int n => n != 0
  | PyObj.double d => d != 0
  | PyObj.str s => s != ""

/-- Truthiness of `col['col_name']` for a dict built by
`HiveServerTTableSchema.cols`. The fall-through cases stand for paths
where the row projection raised while the dict was built (`Option.none`
value) or the key is missing — unreachable at this call site, which only
receives dicts built with the `col_name` key. -/
def colNameTruthy (col : List (String × Option PyObj)) : Bool :=
  match pyDictGet col "col_name" with
  | some (some v) => pyTruthy v
  | _ => false

namespace HiveServerTable

/-- Embeds the `HiveServerTable.cols` property: when every projected row
has a truthy `col_name` (`sum([bool(col['col_name']) for col in cols]) == len(cols)`)
all rows are returned; otherwise the last two lines of the extended
describe are dropped (`cols[:-2]`, i.e. dropping the last two elements,
empty when fewer than two exist). -/
def cols (results : TRowSet) (schema : TTableSchema) :
    List (List (String × Option PyObj)) :=
  let cs := HiveServerTTableSchema.cols results schema
  if (cs.map (fun col => (colNameTruthy col).toNat)).sum = cs.length then cs
  else cs.dropLast.dropLast

end HiveServerTable

/-- Helper: a 0/1 sum over a list is at most the list's length. -/
theorem sum_map_toNat_le_length {α : Type} (f : α → Bool) (l : List α) :
    (l.map (fun x => (f x).toNat)).sum ≤ l.length := by
  induction l with
  | nil => simp
  | cons a l ih =>
    have : (f a).toNat ≤ 1 := by cases f a <;> decide
    simp only [List.map_cons, List.sum_cons, List.length_cons]
    omega

/-- Helper: a 0/1 sum over a list equals its length exactly when the
predicate holds of every element. -/
theorem sum_map_toNat_eq_length_iff {α : Type} (f : α → Bool) (l : List α) :
    (l.map (fun x => (f x).toNat)).sum = l.length ↔ ∀ x ∈ l, f x = true := by
  induction l with
  | nil => simp
  | cons a l ih =>
    have hle := sum_map_toNat_le_length f l
    simp only [List.map_cons, List.sum_cons, List.length_cons, List.mem_cons]
    constructor
    · intro h
      have hfa : f a = true := by
        cases hf : f a with
        | true => rfl
        | false =>
          rw [hf] at h
          simp only [Bool.toNat_false, Nat.zero_add] at h
          omega
      refine fun x hx => hx.elim (fun e => e ▸ hfa) (fun hx' => (ih.mp ?_) x hx')
      rw [hfa] at h
      simp only [Bool.toNat_true] at h
      omega
    · intro h
      have hfa : f a = true := h a (Or.inl rfl)
      have hrest := ih.mpr (fun x hx => h x (Or.inr hx))
      rw [hfa, hrest]
      simp [Nat.add_comm]

/-- Example DESCRIBE-EXTENDED page for C8: three rows, each carrying a
non-empty `col_name` string. -/
def strV (s : String) : TColumnValue :=
  ⟨Option.none, Option.none, Option.none, Option.none, Option.none, Option.none,
   some ⟨some s⟩⟩

def exDescSchema : TTableSchema :=
  ⟨[⟨"col_name"⟩, ⟨"data_type"⟩, ⟨"comment"⟩]⟩

def exDescResults : TRowSet :=
  ⟨0, [⟨[strV "a", strV "int", strV ""]⟩,
       ⟨[strV "b", strV "string", strV ""]⟩,
       ⟨[strV "c", strV "double", strV ""]⟩]⟩

/-- C8 counterexample: on a describe result in which all rows carry a
non-empty `col_name`, the code returns all rows unchanged, whereas the
claim says the last two pseudo-rows are removed. -/
theorem table_cols_counterexample :
    ¬ (HiveServerTable.cols exDescResults exDescSchema =
        (HiveServerTTableSchema.cols exDescResults exDescSchema).dropLast.dropLast) := by
  decide

/-- C8 amended: `HiveServerTable.cols` drops the last two rows of the
describe result exactly when NOT every row has a truthy (non-empty)
`col_name`; when all rows carry a non-empty name it returns all rows
unchanged. -/
theorem table_cols_drop_condition (results : TRowSet) (schema : TTableSchema) :
    ((∀ col ∈ HiveServerTTableSchema.cols results schema, colNameTruthy col = true) →
      HiveServerTable.cols results schema = HiveServerTTableSchema.cols results schema)
    ∧ (¬ (∀ col ∈ HiveServerTTableSchema.cols results schema, colNameTruthy col = true) →
      HiveServerTable.cols results schema =
        (HiveServerTTableSchema.cols results schema).dropLast.dropLast) := by
  have key : ((HiveServerTTableSchema.cols results schema).map
        (fun col => (colNameTruthy col).toNat)).sum =
        (HiveServerTTableSchema.cols results schema).length ↔
      ∀ col ∈ HiveServerTTableSchema.cols results schema, colNameTruthy col = true :=
    sum_map_toNat_eq_length_iff colNameTruthy (HiveServerTTableSchema.cols results schema)
  constructor
  · intro h
    unfold HiveServerTable.cols
    rw [if_pos (key.mpr h)]
  · intro h
    unfold HiveServerTable.cols
    rw [if_neg (fun hc => h (key.mp hc))]

/-- Witness for C8 (amended) at a concrete input: on the all-truthy
describe page the rows are returned unchanged. -/
theorem table_cols_drop_condition_witness :
    HiveServerTable.cols exDescResults exDescSchema =
      HiveServerTTableSchema.cols exDescResults exDescSchema := by
  exact (table_cols_drop_condition exDescResults exDescSchema).1 (by decide)

/-! ### Extended-describe text scraping: `HiveServerTable.path_location` -/

/-- Scan of a character sequence for an occurrence of `pat` as a
contiguous run, used to state the absence of a regex match. -/
def containsSeq (pat : List Char) : List Char → Bool
  | [] => pat.isEmpty
  | c :: rest => pat.isPrefixOf (c :: rest) || containsSeq pat rest

/-- The literal part of the source pattern `location:([^,]+)`. -/
def locPat : List Char := "location:".toList

/-- Embeds `re.search('location:([^,]+)', describe)` followed by
`.group(1)`: scan left to right; at the first position where the literal
`location:` matches and is followed by at least one non-comma character,
capture the maximal run of non-comma characters after the colon;
`Option.none` when no position matches. -/
def locCapture : List Char → Option (List Char)
  | [] => Option.none
  | c :: rest =>
    if locPat.isPrefixOf (c :: rest) then
      match (c :: rest).drop locPat.length with
      | [] => locCapture rest
      | a :: tl => if a = ',' then locCapture rest
                   else some ((a :: tl).takeWhile (fun x => x != ','))
    else locCapture rest

namespace HiveServerTable

/-- Embeds the `HiveServerTable.path_location` property as a function of
the extended-describe text: the captured group of the first match of
`location:([^,]+)`, or Python `None` when the pattern does not match. -/
def path_location (describe : String) : Option String :=
  (locCapture describe.toList).map (fun cs => String.mk cs)

end HiveServerTable

/-- Helper: the cons unfolding of `locCapture`. -/
theorem locCapture_cons (c : Char) (rest : List Char) :
    locCapture (c :: rest) =
      if locPat.isPrefixOf (c :: rest) then
        match (c :: rest).drop locPat.length with
        | [] => locCapture rest
        | a :: tl => if a = ',' then locCapture rest
                     else some ((a :: tl).takeWhile (fun x => x != ','))
      else locCapture rest := by
  rfl

/-- Helper: a text with no occurrence of the literal pattern yields no
capture. -/
theorem locCapture_of_not_contains :
    ∀ (s : List Char), containsSeq locPat s = false → locCapture s = Option.none := by
  intro s
  induction s with
  | nil => intro _; rfl
  | cons c rest ih =>
    intro h
    simp only [containsSeq, Bool.or_eq_false_iff] at h
    rw [locCapture_cons, if_neg (by simp [h.1])]
    exact ih h.2

/-- Helper: scanning skips over a prefix in which the literal pattern
matches at no position. -/
theorem locCapture_append_skip :
    ∀ (pre rest : List Char),
      (∀ i, i < pre.length → locPat.isPrefixOf ((pre ++ rest).drop i) = false) →
      locCapture (pre ++ rest) = locCapture rest := by
  intro pre
  induction pre with
  | nil => intro rest _; rfl
  | cons c pre ih =>
    intro rest h
    have h0 : locPat.isPrefixOf (c :: (pre ++ rest)) = false := by
      have := h 0 (Nat.succ_pos _)
      simpa using this
    rw [List.cons_append, locCapture_cons, if_neg (by simp [h0])]
    refine ih rest (fun i hi => ?_)
    have := h (i + 1) (by simpa using Nat.succ_lt_succ hi)
    simpa [List.cons_append] using this

/-- Helper: `takeWhile` keeps exactly the comma-free run before the
first comma. -/
theorem takeWhile_until_comma (v post : List Char) (hv : ∀ x ∈ v, x ≠ ',') :
    (v ++ ',' :: post).takeWhile (fun x => x != ',') = v := by
  induction v with
  | nil => simp [List.takeWhile_cons]
  | cons a v ih =>
    have ha : a ≠ ',' := hv a (List.mem_cons_self a v)
    simp only [List.cons_append, List.takeWhile_cons, bne_iff_ne, ne_eq, ha,
      not_false_eq_true, if_true]
    rw [ih (fun x hx => hv x (List.mem_cons_of_mem a hx))]

/-- Helper: at a position where `location:` is followed by a non-empty
comma-free run and then a comma, the capture is exactly that run. -/
theorem locCapture_at_match (v post : List Char) (hv : v ≠ [])
    (hcomma : ∀ x ∈ v, x ≠ ',') :
    locCapture (locPat ++ (v ++ ',' :: post)) = some v := by
  obtain ⟨a, v', rfl⟩ := List.exists_cons_of_ne_nil hv
  have ha : a ≠ ',' := hcomma a (List.mem_cons_self a v')
  have hexpose : (locPat ++ ((a :: v') ++ ',' :: post) : List Char) =
      'l' :: ("ocation:".toList ++ ((a :: v') ++ ',' :: post)) := rfl
  have hpre : locPat.isPrefixOf
      ('l' :: ("ocation:".toList ++ ((a :: v') ++ ',' :: post))) = true := by
    rw [List.isPrefixOf_iff_prefix]
    exact List.prefix_append locPat ((a :: v') ++ ',' :: post)
  have hdrop : ('l' :: ("ocation:".toList ++ ((a :: v') ++ ',' :: post))).drop
      locPat.length = a :: (v' ++ ',' :: post) :=
    List.drop_left locPat ((a :: v') ++ ',' :: post)
  rw [hexpose, locCapture_cons, if_pos hpre, hdrop]
  simp only [ne_eq, ha, not_false_eq_true, if_neg ha]
  rw [show (a :: (v' ++ ',' :: post) : List Char) = (a :: v') ++ ',' :: post from rfl]
  rw [takeWhile_until_comma (a :: v') post hcomma]
  simp

/-- C9: for every extended-describe text containing no occurrence of the
`location:` pattern, `path_location` returns the absent value rather than
raising; and on a text whose first `location:` occurrence is followed by
a non-empty comma-free value and a comma, it returns exactly that
captured value before the first comma. -/
theorem path_location_capture (s : String) (pre v post : List Char) :
    (containsSeq locPat s.toList = false → HiveServerTable.path_location s = Option.none)
    ∧ ((∀ i, i < pre.length →
          locPat.isPrefixOf ((pre ++ locPat ++ v ++ ',' :: post).drop i) = false) →
        v ≠ [] → (∀ x ∈ v, x ≠ ',') →
        HiveServerTable.path_location (String.mk (pre ++ locPat ++ v ++ ',' :: post)) =
          some (String.mk v)) := by
  constructor
  · intro h
    unfold HiveServerTable.path_location
    rw [locCapture_of_not_contains s.toList h]
    rfl
  · intro hfirst hv hcomma
    unfold HiveServerTable.path_location
    have htl : (String.mk (pre ++ locPat ++ v ++ ',' :: post)).toList =
        pre ++ locPat ++ v ++ ',' :: post := rfl
    have hassoc : pre ++ locPat ++ v ++ ',' :: post =
        pre ++ (locPat ++ (v ++ ',' :: post)) := by
      simp [List.append_assoc]
    rw [htl, hassoc,
      locCapture_append_skip pre (locPat ++ (v ++ ',' :: post))
        (fun i hi => by rw [← hassoc]; exact hfirst i hi),
      locCapture_at_match v post hv hcomma]
    rfl

/-- Witness for C9 at concrete inputs: a describe text without the
pattern yields `None`; one with `location:hdfs://x/y,` yields the
captured path. -/
theorem path_location_capture_witness :
    HiveServerTable.path_location "columns and comments only" = Option.none
    ∧ HiveServerTable.path_location
        (String.mk (locPat ++ "hdfs://x/y".toList ++ ',' :: " parameters".toList)) =
      some (String.mk "hdfs://x/y".toList) := by
  refine ⟨(path_location_capture "columns and comments only" [] [] []).1 (by decide), ?_⟩
  exact (path_location_capture "x" [] "hdfs://x/y".toList " parameters".toList).2
    (fun i hi => absurd hi (by simp)) (by decide) (by decide)

/-! ### Session/Execution Client dispatch: `HiveServerClient.call` -/

/-- Status part of an RPC response. -/
structure TStatus where
  statusCode : TStatusCode
  errorMessage : Option String
  deriving DecidableEq, Repr

/-- Embeds the stale-session test of `HiveServerClient.call`:
`re.search('Invalid SessionHandle|Invalid session', res.status.errorMessage or '', re.I)`.
Case-insensitive matching is modelled by lowering both the text and the
two literal alternates of the pattern. -/
def staleMatch (errorMessage : Option String) : Bool :=
  let text := (errorMessage.getD "").toList.map Char.toLower
  containsSeq ("Invalid SessionHandle".toList.map Char.toLower) text ||
    containsSeq ("Invalid session".toList.map Char.toLower) text

/-- Environment of a `call` invocation: the session store's record for
(user, service), the handles produced by successive `open_session` calls
(indexed by how many opens happened before), and the server's response to
each RPC invocation (indexed by invocation number and carrying the
request's session handle at that point). -/
structure CallEnv where
  storedSession : Option Nat
  newSessionHandle : Nat → Nat
  rpcResponse : Nat → Option Nat → TStatus

/-- Observable outcome of one `call` invocation: the returned response or
the raised `QueryServerException`, how many sessions were opened, how
many times the RPC was invoked, and the request's final session handle. -/
structure CallResult where
  result : Except PyError TStatus
  sessionsOpened : Nat
  rpcCalls : Nat
  finalReqHandle : Option Nat
  deriving Repr

/-- The accepted status codes of `HiveServerClient.call`'s final check. -/
def acceptedStatusCodes : List TStatusCode :=
  [TStatusCode.SUCCESS_STATUS, TStatusCode.SUCCESS_WITH_INFO_STATUS,
   TStatusCode.STILL_EXECUTING_STATUS]

namespace HiveServerClient

/-- Embeds `HiveServerClient.call` for a request carrying a
`sessionHandle` attribute: look up the stored session, opening one if
absent; populate the request's unset handle from the session; invoke the
RPC; on an error status whose message matches the stale-session pattern,
open one brand-new session, rebind the request's handle and retry the
same RPC exactly once; finally raise `QueryServerException` unless the
(possibly retried) response's status is accepted or the status check is
disabled (`status=None`). -/
def call (env : CallEnv) (reqSessionHandle : Option Nat) (status : Option TStatusCode) :
    CallResult :=
  let opens0 : Nat := match env.storedSession with
    | some _ => 0
    | Option.none => 1
  let sess : Nat := match env.storedSession with
    | some s => s
    | Option.none => env.newSessionHandle 0
  let h1 : Option Nat := match reqSessionHandle with
    | some h => some h
    | Option.none => some sess
  let res1 := env.rpcResponse 0 h1
  if res1.statusCode = TStatusCode.ERROR_STATUS ∧ staleMatch res1.errorMessage = true then
    let h2 : Option Nat := some (env.newSessionHandle opens0)
    let res2 := env.rpcResponse 1 h2
    if status ≠ Option.none ∧ res2.statusCode ∉ acceptedStatusCodes then
      ⟨Except.error PyError.queryServerException, opens0 + 1, 2, h2⟩
    else
      ⟨Except.ok res2, opens0 + 1, 2, h2⟩
  else
    if status ≠ Option.none ∧ res1.statusCode ∉ acceptedStatusCodes then
      ⟨Except.error PyError.queryServerException, opens0, 1, h1⟩
    else
      ⟨Except.ok res1, opens0, 1, h1⟩

end HiveServerClient

/-- C1: when a session is stored and the first RPC response has error
status with a message matching the case-insensitive
`Invalid SessionHandle|Invalid session` pattern, `call` opens exactly one
new session, rebinds the request's session handle to it, and retries the
same RPC exactly once (two invocations in total, even when the retried
response fails again); and when the retried response's status is not
accepted (and the status check is not disabled), it raises
`QueryServerException` rather than retrying again. -/
theorem call_stale_session_single_retry (env : CallEnv) (s0 : Nat)
    (status : Option TStatusCode)
    (hstore : env.storedSession = some s0)
    (herr : (env.rpcResponse 0 (some s0)).statusCode = TStatusCode.ERROR_STATUS)
    (hmsg : staleMatch (env.rpcResponse 0 (some s0)).errorMessage = true) :
    (HiveServerClient.call env Option.none status).sessionsOpened = 1
    ∧ (HiveServerClient.call env Option.none status).rpcCalls = 2
    ∧ (HiveServerClient.call env Option.none status).finalReqHandle =
        some (env.newSessionHandle 0)
    ∧ (status ≠ Option.none →
        (env.rpcResponse 1 (some (env.newSessionHandle 0))).statusCode ∉
          acceptedStatusCodes →
        (HiveServerClient.call env Option.none status).result =
          Except.error PyError.queryServerException) := by
  unfold HiveServerClient.call
  rw [hstore]
  simp only
  rw [if_pos ⟨herr, hmsg⟩]
  by_cases hc : status ≠ Option.none ∧
      (env.rpcResponse 1 (some (env.newSessionHandle 0))).statusCode ∉ acceptedStatusCodes
  · rw [if_pos hc]
    exact ⟨rfl, rfl, rfl, fun _ _ => rfl⟩
  · rw [if_neg hc]
    exact ⟨rfl, rfl, rfl, fun hs hacc => absurd ⟨hs, hacc⟩ hc⟩

/-- Concrete environment for the C1 witness: a stored session whose
handle the server rejects as invalid on both the first call and the
retry. -/
def staleEnvW : CallEnv :=
  ⟨some 7, fun _ => 42,
   fun _ _ => ⟨TStatusCode.ERROR_STATUS, some "Invalid SessionHandle: nope"⟩⟩

/-- Witness for C1 at a concrete input: with both responses carrying a
stale-session error, exactly one new session is opened, the RPC runs
exactly twice, the handle is rebound to the new session, and the retried
failure raises `QueryServerException`. -/
theorem call_stale_session_single_retry_witness :
    (HiveServerClient.call staleEnvW Option.none (some TStatusCode.SUCCESS_STATUS)).sessionsOpened = 1
    ∧ (HiveServerClient.call staleEnvW Option.none (some TStatusCode.SUCCESS_STATUS)).rpcCalls = 2
    ∧ (HiveServerClient.call staleEnvW Option.none (some TStatusCode.SUCCESS_STATUS)).finalReqHandle =
        some 42
    ∧ (HiveServerClient.call staleEnvW Option.none (some TStatusCode.SUCCESS_STATUS)).result =
        Except.error PyError.queryServerException := by
  have h := call_stale_session_single_retry staleEnvW 7
    (some TStatusCode.SUCCESS_STATUS) rfl rfl (by decide)
  exact ⟨h.1, h.2.1, h.2.2.1, h.2.2.2 (by decide) (by decide)⟩
